import Mathlib

/-!
# Verification of the data_compare_service table-diff engine

Shallow embedding of `src/api.py`: schema reconciliation
(`get_columns_data`), column classification (`get_all_columns_info`,
`_get_numeric_text_cols`), metrics normalization (`get_table_metrics`),
and the diff calculator (`_get_all_metrics_diff`).

Modelling conventions:
* Python dicts are association lists `List (String × α)`; insertion order
  is preserved, key lookup is `alook`, and `dict[k] = v` is `updA` (replace
  in place, else append), matching CPython dict semantics.
* Python floats are modelled as `ℚ`; `round(x, n)` is `pyRound` (round half
  to even, Python's rounding mode).
* A raised exception is `Option.none` (the service has no handler above the
  modelled code, so `none` means the request errors out).
* Database results are parameters: a statistics query yields
  `Option (List (String × ℚ))` (`none` = the query raised) and a row-count
  query yields `Option Int`.
-/

namespace DataCompare

/-- Association-list lookup: Python `d[k]` / `k in d` (first, and for a dict
only, binding of the key). -/
def alook {α : Type} : List (String × α) → String → Option α
  | [], _ => none
  | (k, v) :: rest, c => if c = k then some v else alook rest c

/-- Python dict assignment `d[k] = v`: replace the value at `k` in place if
present, otherwise append the new binding at the end. -/
def updA {α : Type} : List (String × α) → String → α → List (String × α)
  | [], k, v => [(k, v)]
  | (k', v') :: rest, k, v =>
      if k' = k then (k', v) :: rest else (k', v') :: updA rest k v

/-- Keys of an association list, in order. -/
def keysOf {α : Type} (l : List (String × α)) : List String :=
  l.map Prod.fst

/-- Whether `pat` occurs at the head of `hay` (on character lists). -/
def leadsWith : List Char → List Char → Bool
  | [], _ => true
  | _ :: _, [] => false
  | p :: ps, h :: hs => p = h && leadsWith ps hs

/-- Whether `pat` occurs as a contiguous run anywhere in `hay`
(Python `pat in hay` on strings, on character lists). -/
def hasSub (hay pat : List Char) : Bool :=
  match hay with
  | [] => pat.isEmpty
  | _ :: hs => leadsWith pat hay || hasSub hs pat

/-- Python `pat in hay` for strings. -/
def strHasSub (hay pat : String) : Bool :=
  hasSub hay.data pat.data

/-- Python `str.casefold` restricted to the ASCII type names the service
handles: lower-case every character. -/
def foldStr (s : String) : String :=
  String.mk (s.data.map Char.toLower)

/-- Python `s.partition("(")[0]`: the part of the type string before the
first `(`, i.e. the base type token (`api.py` line 123 / 160-161). -/
def baseOf (s : String) : String :=
  String.mk (s.data.takeWhile (fun c => c ≠ '('))

/-- Split a character list at the first occurrence of `c`: returns the
part before and the part after, or `none` if `c` does not occur. -/
def splitFirst (c : Char) : List Char → Option (List Char × List Char)
  | [] => none
  | x :: xs =>
      if x = c then some ([], xs)
      else (splitFirst c xs).map (fun p => (x :: p.1, p.2))

/-- Python `s.rpartition("_")` reduced to the two parts the service uses:
`(head, tail)` around the LAST underscore, and `("", s)` when there is no
underscore (`api.py` lines 86, 105, 376). -/
def rpartUnd (s : String) : String × String :=
  match splitFirst '_' s.data.reverse with
  | none => ("", s)
  | some (tailRev, headRev) => (String.mk headRev.reverse, String.mk tailRev.reverse)

/-- Python `s.endswith(pat)`. -/
def endsWithStr (s pat : String) : Bool :=
  leadsWith pat.data.reverse s.data.reverse

/-- Floor-based round-half-to-even on ℚ, the tie-breaking Python's `round`
uses. -/
def rndHalfEven (x : ℚ) : ℤ :=
  let n := ⌊x⌋
  let r := x - n
  if r < 1/2 then n
  else if 1/2 < r then n + 1
  else if n % 2 = 0 then n else n + 1

/-- Python `round(x, d)` on the ℚ model of floats. -/
def pyRound (x : ℚ) (d : ℕ) : ℚ :=
  (rndHalfEven (x * (10 : ℚ) ^ d) : ℚ) / (10 : ℚ) ^ d

/-- The percent-diff value of one key of the diff loop: Python's
`round(((v1 - v2) * 100) / v1, 5)` guarded by `except ZeroDivisionError`
(`api.py` lines 355-361).  Division by zero raises in Python exactly when
`v1 == 0`, which the handler turns into the `"N/A"` sentinel; every other
input produces a number, and nothing else in the computation can raise. -/
inductive PDiff : Type
  | na : PDiff
  | pct : ℚ → PDiff
deriving DecidableEq, Repr

/-- The percent diff of a pair of scalars (`api.py` lines 355-361). -/
def percentDiff (v1 v2 : ℚ) : PDiff :=
  if v1 = 0 then PDiff.na
  else PDiff.pct (pyRound ((v1 - v2) * 100 / v1) 5)

/-- Decimal rendering of a ℚ (stands in for Python's `str` of a float; the
claims only depend on the sentinel and the trailing `%`, not the digits). -/
def ratToStr (q : ℚ) : String :=
  toString q.num ++ (if q.den = 1 then "" else "/" ++ toString q.den)

/-- The string stored under `"percent"` (`api.py` lines 363-366):
`f"{value}%"` for a number, the sentinel itself for `"N/A"`. -/
def renderPDiff : PDiff → String
  | PDiff.na => "N/A"
  | PDiff.pct q => ratToStr q ++ "%"

/-- The percent-diff string of a pair of scalars (lines 355-366). -/
def percentDiffStr (v1 v2 : ℚ) : String :=
  renderPDiff (percentDiff v1 v2)

/-- Semantic class of a column type. -/
inductive ColClass : Type
  | numeric : ColClass
  | text : ColClass
  | other : ColClass
deriving DecidableEq, Repr

/-- Diff-mode numeric test (`api.py` lines 302-304), on the case-folded
type string. -/
def diffNumericCond (t : String) : Bool :=
  strHasSub t "float" || strHasSub t "integer" ||
    (strHasSub t "double precision" && !strHasSub t "[]")

/-- Diff-mode text test (`api.py` line 306). -/
def diffTextCond (t : String) : Bool :=
  strHasSub t "char" || strHasSub t "text"

/-- Diff-mode classifier: the branch body of `_get_numeric_text_cols`
applied to one declared type (`api.py` lines 301-307): case-fold the type
string, then the numeric check, then (`elif`) the text check, else neither
set is touched. -/
def classifyDiffMode (ty : String) : ColClass :=
  let t := foldStr ty
  if diffNumericCond t then ColClass.numeric
  else if diffTextCond t then ColClass.text
  else ColClass.other

/-- `_get_numeric_text_cols` (`api.py` lines 294-309) over the
`common_columns_same_type` entries `(column_name, column_type)`: the text
and numeric column-name sets, as lists of members. -/
def getNumericTextCols (entries : List (String × String)) :
    List String × List String :=
  ((entries.filter (fun p => classifyDiffMode p.2 = ColClass.text)).map Prod.fst,
   (entries.filter (fun p => classifyDiffMode p.2 = ColClass.numeric)).map Prod.fst)

/-- Schema-mode numeric test (`api.py` line 127), on the case-folded base
type string. -/
def schemaNumericCond (t : String) : Bool :=
  strHasSub t "float" || strHasSub t "integer" || strHasSub t "precision"

/-- `get_all_columns_info` (`api.py` lines 115-133): the
`columns_type_map` (column name to case-folded base type) and the list of
numeric column names. -/
def getAllColumnsInfo (cols : List (String × String)) :
    List (String × String) × List String :=
  let typed := cols.map (fun p => (p.1, foldStr (baseOf p.2)))
  (typed, (typed.filter (fun p => schemaNumericCond p.2)).map Prod.fst)

/-- Output of `get_columns_data` (`api.py` lines 151-157): the uncommon and
common column-name sets and the same/different-type partition of the common
columns (each same-type entry carries the shared base token, each
different-type entry both sides' base tokens). -/
structure ColumnsData where
  table1Uncommon : List String
  table2Uncommon : List String
  common : List String
  sameType : List (String × String)
  diffType : List (String × String × String)
deriving DecidableEq, Repr

/-- `get_columns_data` (`api.py` lines 136-173).  `common` holds the
table_1 columns whose lookup on table_2's side succeeds (lines 140-146);
the type comparison at lines 160-162 strips the parenthesized parameter
suffix from each raw declared type and compares the bases exactly — with no
case folding. -/
def getColumnsData (t1 t2 : List (String × String)) : ColumnsData :=
  let common := (keysOf t1).filter (fun c => (alook t2 c).isSome)
  { table1Uncommon := (keysOf t1).filter (fun c => decide (c ∉ common))
    table2Uncommon := (keysOf t2).filter (fun c => decide (c ∉ common))
    common := common
    sameType := common.filterMap (fun c =>
      match alook t1 c, alook t2 c with
      | some ty1, some ty2 =>
          if baseOf ty1 = baseOf ty2 then some (c, baseOf ty1) else none
      | _, _ => none)
    diffType := common.filterMap (fun c =>
      match alook t1 c, alook t2 c with
      | some ty1, some ty2 =>
          if baseOf ty1 = baseOf ty2 then none
          else some (c, baseOf ty1, baseOf ty2)
      | _, _ => none) }

/-- `_get_engines_conns_tables` (`api.py` lines 200-223): the
process-table-2 flag followed by the defaulted
`(conn_1, conn_2, table_1, table_2)`.  Python's `not s` on a string is
`s = ""`. -/
def getEnginesConnsTables (c1 c2 t1 t2 : String) :
    Bool × String × String × String × String :=
  let p : Bool × String × String :=
    if t2 = "" then
      if c2 = "" then (false, c2, t2) else (true, c2, t1)
    else
      if c2 = "" then (true, c1, t2) else (true, c2, t2)
  let e2 := if c1 = p.2.1 ∧ t1 = p.2.2 then false else p.1
  (e2, c1, p.2.1, t1, p.2.2)

/-- Top-level key set of the available-columns response (`api.py` lines
264-271): `table_1`/`table_2` when the flag says to inspect both tables,
the single key `table` otherwise. -/
def availableColumnsKeys (e2 : Bool) : List String :=
  if e2 then ["table_1", "table_2"] else ["table"]

/-- One `diff_value` of the diff loop (`api.py` lines 368-374): the raw
difference and the percent diff.  The strings stored in the report are
`ratToStr (pyRound raw 5)` and `renderPDiff percent`. -/
structure DiffVal where
  raw : ℚ
  percent : PDiff
deriving DecidableEq, Repr

/-- `diff_value_raw = table_1_value - table_2_value` (`api.py` line 368). -/
def rawDiff (v1 v2 : ℚ) : ℚ := v1 - v2

/-- The `diff_value` record built for one key (`api.py` lines 355-374). -/
def mkDiffVal (v1 v2 : ℚ) : DiffVal :=
  { raw := rawDiff v1 v2, percent := percentDiff v1 v2 }

/-- The grouped diff structure initialised at `api.py` lines 339-349. -/
structure MetricsDiff where
  meanDiff : List (String × DiffVal)
  stddevDiff : List (String × DiffVal)
  q25 : List (String × DiffVal)
  q50 : List (String × DiffVal)
  q75 : List (String × DiffVal)
  q100 : List (String × DiffVal)
  qIQR : List (String × DiffVal)
deriving DecidableEq, Repr

/-- The empty diff structure (`api.py` lines 339-349). -/
def emptyMetricsDiff : MetricsDiff := ⟨[], [], [], [], [], [], []⟩

/-- Routing of one diff value by the kind behind the last underscore
(`api.py` lines 376-391); a key with an unrecognized kind is dropped. -/
def routeDiff (acc : MetricsDiff) (key : String) (d : DiffVal) : MetricsDiff :=
  let col := (rpartUnd key).1
  let agg := (rpartUnd key).2
  if agg = "mean" then { acc with meanDiff := acc.meanDiff ++ [(col, d)] }
  else if agg = "stddev" then { acc with stddevDiff := acc.stddevDiff ++ [(col, d)] }
  else if agg = "quartile25" then { acc with q25 := acc.q25 ++ [(col, d)] }
  else if agg = "quartile50" then { acc with q50 := acc.q50 ++ [(col, d)] }
  else if agg = "quartile75" then { acc with q75 := acc.q75 ++ [(col, d)] }
  else if agg = "quartile100" then { acc with q100 := acc.q100 ++ [(col, d)] }
  else if agg = "IQR" then { acc with qIQR := acc.qIQR ++ [(col, d)] }
  else acc

/-- The loop of `_get_all_metrics_diff` (`api.py` lines 351-393): iterate
over table_1's keys only; `table_2_agg_metrics[key]` (line 353) raises
`KeyError` (= `none`) when the key is missing on table_2's side. -/
def metricsDiffGo (t2 : List (String × ℚ)) :
    MetricsDiff → List (String × ℚ) → Option MetricsDiff
  | acc, [] => some acc
  | acc, (k, v1) :: rest =>
      match alook t2 k with
      | none => none
      | some v2 => metricsDiffGo t2 (routeDiff acc k (mkDiffVal v1 v2)) rest

/-- `_get_all_metrics_diff` (`api.py` lines 334-393). -/
def metricsDiff (t1 t2 : List (String × ℚ)) : Option MetricsDiff :=
  metricsDiffGo t2 emptyMetricsDiff t1

/-- `row_count_diff` (`api.py` lines 473-476): plain integer subtraction,
no percentage. -/
def rowCountDiff (r1 r2 : ℤ) : ℤ := r1 - r2

/-- Rounding pass over the flat aggregate result (`api.py` lines 78-80). -/
def roundAgg (l : List (String × ℚ)) : List (String × ℚ) :=
  l.map (fun p => (p.1, pyRound p.2 2))

/-- Whether a key enters the quartile map (`api.py` line 85). -/
def isQuartKey (k : String) : Bool :=
  endsWithStr k "quartile25" || endsWithStr k "quartile75"

/-- `quartile_map.setdefault(col, {}).update({tail: v})`
(`api.py` line 89). -/
def updNested : List (String × List (String × ℚ)) → String → String → ℚ →
    List (String × List (String × ℚ))
  | [], col, t, v => [(col, [(t, v)])]
  | (c, d) :: rest, col, t, v =>
      if c = col then (c, updA d t v) :: rest
      else (c, d) :: updNested rest col t v

/-- One step of the quartile-map construction loop (`api.py` lines 84-89):
a key ending in `quartile25`/`quartile75` is split at its last underscore
and recorded under (column, kind-tail). -/
def quartStep (m : List (String × List (String × ℚ))) (kv : String × ℚ) :
    List (String × List (String × ℚ)) :=
  if isQuartKey kv.1 then updNested m (rpartUnd kv.1).1 (rpartUnd kv.1).2 kv.2
  else m

/-- `quartile_map` after the loop (`api.py` lines 82-89). -/
def buildQuartMap (l : List (String × ℚ)) : List (String × List (String × ℚ)) :=
  l.foldl quartStep []

/-- Two-level lookup `quartile_map[col][t]`, as a total observation on the
nested association list. -/
def qLook (m : List (String × List (String × ℚ))) (col t : String) : Option ℚ :=
  (alook m col).bind (fun d => alook d t)

/-- The synthetic IQR entry of one quartile-map column (`api.py` line 93):
`quartile_data["quartile75"] - quartile_data["quartile25"]`, raising
`KeyError` (= `none`) when the column reached the map under only one of the
two expected kind tails. -/
def iqrOf (p : String × List (String × ℚ)) : Option (String × ℚ) :=
  match alook p.2 "quartile75", alook p.2 "quartile25" with
  | some v75, some v25 => some (p.1 ++ "_IQR", v75 - v25)
  | _, _ => none

/-- The IQR-insertion loop (`api.py` lines 92-93), as the list of entries
to write into `agg_result`; `none` as soon as one column raises. -/
def iqrEntries : List (String × List (String × ℚ)) → Option (List (String × ℚ))
  | [] => some []
  | p :: rest =>
      match iqrOf p, iqrEntries rest with
      | some e, some es => some (e :: es)
      | _, _ => none

/-- Grouping pass `formatted_metrics` (`api.py` lines 102-110), minus the
`row_count` scalar, which the model keeps in its own field (a flat key
literally ending in `_row_count` would make line 107 subscript the integer
and raise; no planner-generated key does). -/
def formatMetrics (agg : List (String × ℚ)) :
    List (String × List (String × ℚ)) :=
  agg.foldl (fun m kv => updNested m (rpartUnd kv.1).2 (rpartUnd kv.1).1 kv.2) []

/-- The result of `get_table_metrics` (`api.py` line 112): the row count,
the per-kind formatted metrics, and the flat `original_metrics` map. -/
structure TableMetrics where
  rowCount : ℤ
  byAgg : List (String × List (String × ℚ))
  original : List (String × ℚ)
deriving DecidableEq, Repr

/-- `get_table_metrics` (`api.py` lines 61-112).  `aggRes` is the outcome
of the batched statistics query (`none` = it raised, caught at lines 73-76
and degraded to `{}`); `rowRes` is the outcome of the row-count query
(`none` = it raised, caught at lines 97-100 and degraded to `0`).  The call
itself returns `none` only when the IQR loop raises `KeyError` (line 93),
which no handler catches. -/
def getTableMetrics (aggRes : Option (List (String × ℚ))) (rowRes : Option ℤ) :
    Option TableMetrics :=
  let agg0 := roundAgg (aggRes.getD [])
  match iqrEntries (buildQuartMap agg0) with
  | none => none
  | some iqrs =>
      let agg := iqrs.foldl (fun a kv => updA a kv.1 kv.2) agg0
      some { rowCount := rowRes.getD 0
             byAgg := formatMetrics agg
             original := agg }

/-- The metrics/diff tail of `get_table_diff` (`api.py` lines 449-476):
normalize both tables' query outcomes, diff the two flat maps, subtract the
row counts; `none` when any of the three steps raises. -/
def tableDiffMetrics (agg1 : Option (List (String × ℚ))) (row1 : Option ℤ)
    (agg2 : Option (List (String × ℚ))) (row2 : Option ℤ) :
    Option (TableMetrics × TableMetrics × MetricsDiff × ℤ) :=
  match getTableMetrics agg1 row1, getTableMetrics agg2 row2 with
  | some tm1, some tm2 =>
      match metricsDiff tm1.original tm2.original with
      | some md => some (tm1, tm2, md, rowCountDiff tm1.rowCount tm2.rowCount)
      | none => none
  | _, _ => none

/-! ## Helper lemmas -/

theorem alook_isSome_iff {α : Type} (l : List (String × α)) (c : String) :
    (alook l c).isSome = true ↔ c ∈ keysOf l := by
  induction l with
  | nil => simp [alook, keysOf]
  | cons p rest ih =>
      obtain ⟨k, v⟩ := p
      by_cases h : c = k
      · simp [alook, keysOf, h]
      · simpa [alook, keysOf, h] using ih

theorem alook_some_mem {α : Type} {l : List (String × α)} {c : String} {v : α}
    (h : alook l c = some v) : (c, v) ∈ l := by
  induction l with
  | nil => simp [alook] at h
  | cons p rest ih =>
      obtain ⟨k, w⟩ := p
      by_cases hc : c = k
      · simp only [alook, if_pos hc] at h
        cases h
        simp [hc]
      · simp only [alook, if_neg hc] at h
        exact List.mem_cons_of_mem _ (ih h)

theorem ratToStr_append_pct_ne_na (s : String) : s ++ "%" ≠ "N/A" := by
  intro h
  rw [String.ext_iff, String.data_append] at h
  have h2 := congrArg List.getLast? h
  rw [show ("%" : String).data = ['%'] from rfl, List.getLast?_concat] at h2
  exact absurd h2 (by decide)

/-! ## C1: percent diff -/

/-- C1: for every pair of scalars processed by the diff loop, the percent
diff is the sentinel `"N/A"` exactly when `value_1 = 0` (the only input on
which Python's division raises, and the handler at `api.py` lines 360-361
converts it), and on every other input it is
`round((value_1 - value_2) * 100 / value_1, 5)` rendered with a trailing
percent sign; `percentDiff`/`percentDiffStr` are total functions, so the
computation never raises. -/
theorem percentDiff_na_iff_zero (v1 v2 : ℚ) :
    (percentDiff v1 v2 = PDiff.na ↔ v1 = 0) ∧
    (v1 ≠ 0 → percentDiff v1 v2 = PDiff.pct (pyRound ((v1 - v2) * 100 / v1) 5)) ∧
    (percentDiffStr v1 v2 = "N/A" ↔ v1 = 0) ∧
    (v1 ≠ 0 → percentDiffStr v1 v2 =
      ratToStr (pyRound ((v1 - v2) * 100 / v1) 5) ++ "%") := by
  by_cases h : v1 = 0 <;>
    simp [percentDiff, percentDiffStr, renderPDiff, h, ratToStr_append_pct_ne_na]

/-- Concrete instance of `percentDiff_na_iff_zero`: at `(0, 5)` the percent
diff is the sentinel, at `(4, 2)` it is the rounded percentage with the
trailing percent sign. -/
theorem percentDiff_na_iff_zero_witness :
    percentDiff 0 5 = PDiff.na ∧
    percentDiff 4 2 = PDiff.pct (pyRound ((4 - 2) * 100 / 4) 5) ∧
    percentDiffStr 4 2 = ratToStr (pyRound ((4 - 2) * 100 / 4) 5) ++ "%" :=
  ⟨(percentDiff_na_iff_zero 0 5).1.mpr rfl,
   (percentDiff_na_iff_zero 4 2).2.1 (by norm_num),
   (percentDiff_na_iff_zero 4 2).2.2.2 (by norm_num)⟩

/-! ## C8: zero diffs on equal inputs -/

/-- C8: the raw diff of equal scalar values is zero (both as the bare
subtraction of `api.py` line 368 and inside the `diff_value` record), and
the row-count diff of equal row counts is zero, `row_count_diff` being
plain integer subtraction with no percentage. -/
theorem rawDiff_self_zero (v : ℚ) (n : ℤ) :
    rawDiff v v = 0 ∧ (mkDiffVal v v).raw = 0 ∧ rowCountDiff n n = 0 := by
  simp [rawDiff, mkDiffVal, rowCountDiff]

/-! ## C3: reconciler partition invariants -/

/-- C3: for any two column mappings, the common columns and table-1
uncommon columns partition table_1's column set (their union is
`columns(table_1)` and they are disjoint), and symmetrically the common
columns and table-2 uncommon columns partition table_2's column set. -/
theorem getColumnsData_partition (t1 t2 : List (String × String)) (c : String) :
    ((c ∈ (getColumnsData t1 t2).common ∨ c ∈ (getColumnsData t1 t2).table1Uncommon)
        ↔ c ∈ keysOf t1) ∧
    ¬(c ∈ (getColumnsData t1 t2).common ∧ c ∈ (getColumnsData t1 t2).table1Uncommon) ∧
    ((c ∈ (getColumnsData t1 t2).common ∨ c ∈ (getColumnsData t1 t2).table2Uncommon)
        ↔ c ∈ keysOf t2) ∧
    ¬(c ∈ (getColumnsData t1 t2).common ∧ c ∈ (getColumnsData t1 t2).table2Uncommon) := by
  have hiff : (alook t2 c).isSome = true ↔ c ∈ keysOf t2 := alook_isSome_iff t2 c
  simp only [getColumnsData, List.mem_filter, decide_eq_true_eq]
  refine ⟨?_, ?_, ?_, ?_⟩ <;> tauto

/-! ## C4: same-type classification of common columns -/

theorem baseOf_strips (pre suf : List Char) (h : ∀ x ∈ pre, x ≠ '(') :
    baseOf (String.mk (pre ++ '(' :: suf)) = String.mk pre := by
  have key : ∀ (pr : List Char), (∀ x ∈ pr, x ≠ '(') →
      List.takeWhile (fun c => !decide (c = '(')) (pr ++ '(' :: suf) = pr := by
    intro pr
    induction pr with
    | nil => intro _; simp [List.takeWhile_cons]
    | cons p ps ih =>
        intro hpr
        have hp : p ≠ '(' := hpr p (by simp)
        simp [List.takeWhile_cons, hp, ih (fun x hx => hpr x (by simp [hx]))]
  unfold baseOf
  congr 1
  simpa using key pre h

/-- C4 counterexample: the two declared types `"VARCHAR(10)"` and
`"varchar(50)"` have base tokens that differ only in letter case (their
case-folds agree), yet `get_columns_data` classifies the column as
different-type, because the comparison at `api.py` line 162 is on the raw
stripped bases with no case folding. -/
theorem getColumnsData_no_casefold_counterexample :
    foldStr (baseOf "VARCHAR(10)") = foldStr (baseOf "varchar(50)") ∧
    (getColumnsData [("a", "VARCHAR(10)")] [("a", "varchar(50)")]).sameType = [] ∧
    (getColumnsData [("a", "VARCHAR(10)")] [("a", "varchar(50)")]).diffType
      = [("a", "VARCHAR", "varchar")] :=
  ⟨by decide, rfl, rfl⟩

/-- C4 (amended): for every common column, the reconciler strips any
parenthesized parameter suffix from each side's declared type string (no
case folding) and classifies the column as same-type exactly when the two
stripped base tokens are equal as raw strings — so `"varchar(10)"` and
`"varchar(50)"` are same-type, while bases differing only in letter case
are different-type. -/
theorem getColumnsData_sameType_iff (t1 t2 : List (String × String))
    (c ty1 ty2 : String)
    (h1 : alook t1 c = some ty1) (h2 : alook t2 c = some ty2)
    (hc : c ∈ (getColumnsData t1 t2).common) :
    ((c, baseOf ty1) ∈ (getColumnsData t1 t2).sameType ↔ baseOf ty1 = baseOf ty2) ∧
    ((c, baseOf ty1, baseOf ty2) ∈ (getColumnsData t1 t2).diffType ↔
      baseOf ty1 ≠ baseOf ty2) ∧
    (∀ pre suf : List Char, (∀ x ∈ pre, x ≠ '(') →
      baseOf (String.mk (pre ++ '(' :: suf)) = String.mk pre) := by
  refine ⟨?_, ?_, baseOf_strips⟩
  · constructor
    · intro hmem
      simp only [getColumnsData, List.mem_filterMap] at hmem
      obtain ⟨a, ha, hfa⟩ := hmem
      rcases he1 : alook t1 a with _ | u1 <;> rw [he1] at hfa
      · simp at hfa
      rcases he2 : alook t2 a with _ | u2 <;> rw [he2] at hfa
      · simp at hfa
      dsimp only at hfa
      split_ifs at hfa with hb
      rw [Option.some.injEq, Prod.mk.injEq] at hfa
      obtain ⟨hac, -⟩ := hfa
      subst hac
      rw [h1] at he1
      rw [h2] at he2
      cases he1
      cases he2
      exact hb
    · intro hb
      simp only [getColumnsData, List.mem_filterMap]
      refine ⟨c, ?_, ?_⟩
      · simpa [getColumnsData] using hc
      · rw [h1, h2]
        dsimp only
        rw [if_pos hb]
  · constructor
    · intro hmem
      simp only [getColumnsData, List.mem_filterMap] at hmem
      obtain ⟨a, ha, hfa⟩ := hmem
      rcases he1 : alook t1 a with _ | u1 <;> rw [he1] at hfa
      · simp at hfa
      rcases he2 : alook t2 a with _ | u2 <;> rw [he2] at hfa
      · simp at hfa
      dsimp only at hfa
      split_ifs at hfa with hb
      rw [Option.some.injEq, Prod.mk.injEq] at hfa
      obtain ⟨hac, -⟩ := hfa
      subst hac
      rw [h1] at he1
      rw [h2] at he2
      cases he1
      cases he2
      exact hb
    · intro hb
      simp only [getColumnsData, List.mem_filterMap]
      refine ⟨c, ?_, ?_⟩
      · simpa [getColumnsData] using hc
      · rw [h1, h2]
        dsimp only
        rw [if_neg hb]

/-- Concrete instance of `getColumnsData_sameType_iff` at the spec's own
example pair `"varchar(10)"` / `"varchar(50)"`. -/
theorem getColumnsData_sameType_iff_witness :
    ((("a", baseOf "varchar(10)") ∈
        (getColumnsData [("a", "varchar(10)")] [("a", "varchar(50)")]).sameType ↔
      baseOf "varchar(10)" = baseOf "varchar(50)") ∧
     (("a", baseOf "varchar(10)", baseOf "varchar(50)") ∈
        (getColumnsData [("a", "varchar(10)")] [("a", "varchar(50)")]).diffType ↔
      baseOf "varchar(10)" ≠ baseOf "varchar(50)") ∧
     (∀ pre suf : List Char, (∀ x ∈ pre, x ≠ '(') →
       baseOf (String.mk (pre ++ '(' :: suf)) = String.mk pre)) :=
  getColumnsData_sameType_iff [("a", "varchar(10)")] [("a", "varchar(50)")]
    "a" "varchar(10)" "varchar(50)" rfl rfl (by decide)

/-! ## C6: diff-mode classifier -/

/-- C6: on the case-folded type string, the diff-mode classifier returns
Numeric exactly when the string contains `"float"` or `"integer"`, or
contains `"double precision"` and not `"[]"`; failing that it returns Text
exactly when the string contains `"char"` or `"text"`; otherwise Other.
The numeric check precedes the text check (Text is only reachable when the
numeric condition fails), and `classifyDiffMode` is a plain function —
deterministic and pure. -/
theorem classifyDiffMode_cases (ty : String) :
    (classifyDiffMode ty = ColClass.numeric ↔
      (strHasSub (foldStr ty) "float" = true ∨
       strHasSub (foldStr ty) "integer" = true ∨
       (strHasSub (foldStr ty) "double precision" = true ∧
        strHasSub (foldStr ty) "[]" = false))) ∧
    (classifyDiffMode ty = ColClass.text ↔
      (classifyDiffMode ty ≠ ColClass.numeric ∧
       (strHasSub (foldStr ty) "char" = true ∨
        strHasSub (foldStr ty) "text" = true))) ∧
    (classifyDiffMode ty = ColClass.other ↔
      (classifyDiffMode ty ≠ ColClass.numeric ∧
       classifyDiffMode ty ≠ ColClass.text)) := by
  cases h1 : strHasSub (foldStr ty) "float" <;>
  cases h2 : strHasSub (foldStr ty) "integer" <;>
  cases h3 : strHasSub (foldStr ty) "double precision" <;>
  cases h4 : strHasSub (foldStr ty) "[]" <;>
  cases h5 : strHasSub (foldStr ty) "char" <;>
  cases h6 : strHasSub (foldStr ty) "text" <;>
    simp [classifyDiffMode, diffNumericCond, diffTextCond, h1, h2, h3, h4, h5, h6]

/-! ## C7: schema-mode classifier -/

/-- C7: the available-columns query marks a column Numeric — includes it in
`numeric_columns` — exactly when its case-folded base type string contains
`"float"`, `"integer"`, or `"precision"`; and every column, numeric or
not, appears in `columns_type_map` under its case-folded base type. -/
theorem getAllColumnsInfo_numeric_iff (cols : List (String × String)) (c : String) :
    (c ∈ (getAllColumnsInfo cols).2 ↔
      ∃ ty, (c, ty) ∈ cols ∧
        (strHasSub (foldStr (baseOf ty)) "float" = true ∨
         strHasSub (foldStr (baseOf ty)) "integer" = true ∨
         strHasSub (foldStr (baseOf ty)) "precision" = true)) ∧
    (∀ ty, (c, ty) ∈ cols → (c, foldStr (baseOf ty)) ∈ (getAllColumnsInfo cols).1) := by
  constructor
  · constructor
    · intro hmem
      simp only [getAllColumnsInfo, List.mem_map, List.mem_filter] at hmem
      obtain ⟨p, ⟨⟨a, ha, rfl⟩, hcond⟩, rfl⟩ := hmem
      refine ⟨a.2, by simpa using ha, ?_⟩
      simp only [schemaNumericCond, Bool.or_eq_true] at hcond
      tauto
    · rintro ⟨ty, hmem, hcond⟩
      simp only [getAllColumnsInfo, List.mem_map, List.mem_filter]
      refine ⟨(c, foldStr (baseOf ty)), ⟨⟨(c, ty), hmem, rfl⟩, ?_⟩, rfl⟩
      simp only [schemaNumericCond, Bool.or_eq_true]
      tauto
  · intro ty hmem
    simp only [getAllColumnsInfo, List.mem_map]
    exact ⟨(c, ty), hmem, rfl⟩

/-! ## C9: available-columns routing -/

/-- C9: the available-columns request inspects exactly one table — and the
response is keyed `"table"` rather than `"table_1"`/`"table_2"` — precisely
when either both `conn_2` and `table_2` are empty, or, after the defaulting
rules (`table_2` defaults to `table_1` when `conn_2` is given, `conn_2`
defaults to `conn_1` when `table_2` is given), the two connection strings
and the two table names coincide; in every other case both tables are
processed. -/
theorem getEnginesConnsTables_single_iff (c1 c2 t1 t2 : String) :
    ((getEnginesConnsTables c1 c2 t1 t2).1 = false ↔
      ((t2 = "" ∧ c2 = "") ∨
        (c1 = (if t2 ≠ "" ∧ c2 = "" then c1 else c2) ∧
         t1 = (if t2 = "" ∧ c2 ≠ "" then t1 else t2)))) ∧
    (availableColumnsKeys (getEnginesConnsTables c1 c2 t1 t2).1 = ["table"] ↔
      (getEnginesConnsTables c1 c2 t1 t2).1 = false) := by
  constructor
  · by_cases ht : t2 = "" <;> by_cases hc : c2 = "" <;>
      simp [getEnginesConnsTables, ht, hc] <;> (try split_ifs <;> simp_all)
  · cases hres : (getEnginesConnsTables c1 c2 t1 t2).1 <;>
      simp [availableColumnsKeys]

/-! ## C10: the diff iterates over table_1's keys only -/

theorem alook_append_single {α : Type} (l : List (String × α)) (k k' : String)
    (v : α) (h : k' ≠ k) : alook (l ++ [(k, v)]) k' = alook l k' := by
  induction l with
  | nil => simp [alook, h]
  | cons p rest ih =>
      obtain ⟨k0, v0⟩ := p
      by_cases h0 : k' = k0 <;> simp [alook, h0, ih]

/-- C10: the diff loop iterates only over table_1's flat metric keys: a
correlation key present in table_2's map but absent from table_1's map
changes nothing — the diff result (including whether the computation
raises) is the same with or without that extra entry. -/
theorem metricsDiff_ignores_extra_t2_key (t1 t2 : List (String × ℚ))
    (k : String) (v : ℚ) (h : k ∉ keysOf t1) :
    metricsDiff t1 (t2 ++ [(k, v)]) = metricsDiff t1 t2 := by
  unfold metricsDiff
  have main : ∀ (l : List (String × ℚ)), k ∉ keysOf l → ∀ (acc : MetricsDiff),
      metricsDiffGo (t2 ++ [(k, v)]) acc l = metricsDiffGo t2 acc l := by
    intro l
    induction l with
    | nil => intro _ acc; rfl
    | cons p rest ih =>
        intro hl acc
        obtain ⟨k1, v1⟩ := p
        have hk : k1 ≠ k := by
          intro he
          exact hl (by simp [keysOf, he])
        have hrest : k ∉ keysOf rest := by
          intro hm
          exact hl (by simp [keysOf] at hm ⊢; exact Or.inr hm)
        simp only [metricsDiffGo, alook_append_single t2 k k1 v hk]
        cases alook t2 k1 with
        | none => rfl
        | some v2 => exact ih hrest _
  exact main t1 h emptyMetricsDiff

/-- Concrete instance of `metricsDiff_ignores_extra_t2_key`: an extra
`"b_mean"` entry on table_2's side leaves the diff of the `"a_mean"` maps
unchanged. -/
theorem metricsDiff_ignores_extra_t2_key_witness :
    metricsDiff [("a_mean", 1)] ([("a_mean", 2)] ++ [("b_mean", 7)]) =
      metricsDiff [("a_mean", 1)] [("a_mean", 2)] :=
  metricsDiff_ignores_extra_t2_key [("a_mean", 1)] [("a_mean", 2)] "b_mean" 7
    (by decide)

/-! ## C2: silent degradation of statistics failures -/

/-- C2 at the failing input: when both of table_2's queries raise,
`get_table_metrics` itself degrades silently (`row_count = 0`, empty metric
maps, no exception), and a table-1-side failure also lets the diff
complete; but when table_1's statistics succeed with one metric
(`{"a_mean": 1.0}`, row count 5) while table_2's raise, the diff loop hits
`table_2_agg_metrics["a_mean"]` on an empty map and the request dies with
an uncaught `KeyError` instead of completing — contradicting the stated
failure policy. -/
theorem tableDiff_raises_on_t2_stats_failure :
    getTableMetrics none none = some ⟨0, [], []⟩ ∧
    (getTableMetrics (some [("a_mean", 1)]) (some 5)).isSome = true ∧
    metricsDiff [] [("a_mean", 2)] = some emptyMetricsDiff ∧
    (tableDiffMetrics none none (some [("a_mean", 2)]) (some 5)).isSome = true ∧
    tableDiffMetrics (some [("a_mean", 1)]) (some 5) none none = none :=
  ⟨rfl, rfl, rfl, rfl, rfl⟩

/-! ## C5 machinery: dict updates, key splitting, quartile map -/

theorem alook_updA_self {α : Type} (d : List (String × α)) (k : String) (v : α) :
    alook (updA d k v) k = some v := by
  induction d with
  | nil => simp [updA, alook]
  | cons p rest ih =>
      obtain ⟨k0, v0⟩ := p
      by_cases h : k0 = k
      · simp [updA, alook, h]
      · have h' : k ≠ k0 := fun he => h he.symm
        simp [updA, alook, h, h', ih]

theorem alook_updA_other {α : Type} (d : List (String × α)) (k k' : String)
    (v : α) (h : k' ≠ k) : alook (updA d k v) k' = alook d k' := by
  induction d with
  | nil => simp [updA, alook, h]
  | cons p rest ih =>
      obtain ⟨k0, v0⟩ := p
      by_cases h0 : k0 = k
      · subst h0
        simp [updA, alook, h]
      · by_cases h1 : k' = k0 <;> simp [updA, alook, h0, h1, ih]

theorem foldl_updA_alook_preserve (o : List (String × ℚ)) (k : String)
    (h : ∀ p ∈ o, p.1 ≠ k) (acc : List (String × ℚ)) :
    alook (List.foldl (fun a kv => updA a kv.1 kv.2) acc o) k = alook acc k := by
  induction o generalizing acc with
  | nil => rfl
  | cons p rest ih =>
      rw [List.foldl_cons, ih (fun q hq => h q (List.mem_cons_of_mem _ hq))]
      exact alook_updA_other acc p.1 k p.2
        (fun he => h p (List.mem_cons_self _ _) he.symm)

theorem foldl_updA_alook_hit (init o1 o2 : List (String × ℚ)) (k : String)
    (v : ℚ) (h : ∀ p ∈ o2, p.1 ≠ k) :
    alook (List.foldl (fun a kv => updA a kv.1 kv.2) init (o1 ++ (k, v) :: o2)) k
      = some v := by
  rw [List.foldl_append, List.foldl_cons, foldl_updA_alook_preserve o2 k h]
  exact alook_updA_self _ k v

theorem splitFirst_append (c : Char) (l1 l2 : List Char) (h : c ∉ l1) :
    splitFirst c (l1 ++ c :: l2) = some (l1, l2) := by
  induction l1 with
  | nil => simp [splitFirst]
  | cons x xs ih =>
      have hx : x ≠ c := fun he => h (by simp [he])
      simp [splitFirst, hx, ih (fun hm => h (List.mem_cons_of_mem _ hm))]

theorem rpartUnd_of_data (s col t : String)
    (hdata : s.data = col.data ++ '_' :: t.data) (h : '_' ∉ t.data) :
    rpartUnd s = (col, t) := by
  unfold rpartUnd
  rw [hdata, List.reverse_append, List.reverse_cons, List.append_assoc,
    List.singleton_append,
    splitFirst_append '_' _ _ (by simpa using h)]
  simp

theorem rpartUnd_append_q25 (col : String) :
    rpartUnd (col ++ "_quartile25") = (col, "quartile25") :=
  rpartUnd_of_data _ _ _ (by rw [String.data_append]) (by decide)

theorem rpartUnd_append_q75 (col : String) :
    rpartUnd (col ++ "_quartile75") = (col, "quartile75") :=
  rpartUnd_of_data _ _ _ (by rw [String.data_append]) (by decide)

theorem leadsWith_append_self (p rest : List Char) :
    leadsWith p (p ++ rest) = true := by
  induction p with
  | nil => rfl
  | cons x xs ih => simp [leadsWith, ih]

theorem isQuartKey_append_q25 (col : String) :
    isQuartKey (col ++ "_quartile25") = true := by
  unfold isQuartKey endsWithStr
  rw [String.data_append, List.reverse_append,
    show ("_quartile25" : String).data.reverse
      = ("quartile25" : String).data.reverse ++ ['_'] from by decide,
    List.append_assoc, List.singleton_append]
  simp only [Bool.or_eq_true]
  exact Or.inl (leadsWith_append_self _ _)

theorem isQuartKey_append_q75 (col : String) :
    isQuartKey (col ++ "_quartile75") = true := by
  unfold isQuartKey endsWithStr
  rw [String.data_append, List.reverse_append,
    show ("_quartile75" : String).data.reverse
      = ("quartile75" : String).data.reverse ++ ['_'] from by decide,
    List.append_assoc, List.singleton_append]
  simp only [Bool.or_eq_true]
  exact Or.inr (leadsWith_append_self _ _)

theorem alook_updNested_other (m : List (String × List (String × ℚ)))
    (col col' t : String) (v : ℚ) (h : col' ≠ col) :
    alook (updNested m col t v) col' = alook m col' := by
  induction m with
  | nil => simp [updNested, alook, h]
  | cons p rest ih =>
      obtain ⟨c, d⟩ := p
      by_cases hc : c = col
      · subst hc
        simp [updNested, alook, h]
      · by_cases h2 : col' = c <;> simp [updNested, alook, hc, h2, ih]

theorem alook_updNested_self (m : List (String × List (String × ℚ)))
    (col t : String) (v : ℚ) :
    alook (updNested m col t v) col = some (updA ((alook m col).getD []) t v) := by
  induction m with
  | nil => simp [updNested, alook, updA]
  | cons p rest ih =>
      obtain ⟨c, d⟩ := p
      by_cases hc : c = col
      · subst hc
        simp [updNested, alook]
      · have hc' : col ≠ c := fun he => hc he.symm
        simp [updNested, alook, hc, hc', ih]

theorem qLook_quartStep_other (m : List (String × List (String × ℚ)))
    (kv : String × ℚ) (col t : String)
    (h : ¬(isQuartKey kv.1 = true ∧ rpartUnd kv.1 = (col, t))) :
    qLook (quartStep m kv) col t = qLook m col t := by
  unfold quartStep
  by_cases hq : isQuartKey kv.1 = true
  · rw [if_pos hq]
    have hr : rpartUnd kv.1 ≠ (col, t) := fun he => h ⟨hq, he⟩
    by_cases hcol : (rpartUnd kv.1).1 = col
    · have ht : (rpartUnd kv.1).2 ≠ t := by
        intro he2
        exact hr (Prod.ext hcol he2)
      unfold qLook
      rw [hcol, alook_updNested_self m col (rpartUnd kv.1).2 kv.2]
      cases halook : alook m col with
      | none => simp [halook, alook, Ne.symm ht]
      | some d => simp [halook, alook_updA_other d _ _ _ (fun he => ht he.symm)]
    · unfold qLook
      rw [alook_updNested_other _ _ _ _ _ (fun he => hcol he.symm)]
  · rw [if_neg hq]

theorem qLook_quartStep_hit (m : List (String × List (String × ℚ)))
    (kv : String × ℚ) (col t : String)
    (hq : isQuartKey kv.1 = true) (hr : rpartUnd kv.1 = (col, t)) :
    qLook (quartStep m kv) col t = some kv.2 := by
  unfold quartStep qLook
  rw [if_pos hq, hr]
  rw [show ((col, t) : String × String).1 = col from rfl,
    show ((col, t) : String × String).2 = t from rfl,
    alook_updNested_self]
  simp [alook_updA_self]

theorem qLook_foldl_preserve (l : List (String × ℚ)) (col t : String)
    (h : ∀ p ∈ l, ¬(isQuartKey p.1 = true ∧ rpartUnd p.1 = (col, t)))
    (acc : List (String × List (String × ℚ))) :
    qLook (l.foldl quartStep acc) col t = qLook acc col t := by
  induction l generalizing acc with
  | nil => rfl
  | cons p rest ih =>
      rw [List.foldl_cons, ih (fun q hq => h q (List.mem_cons_of_mem _ hq)),
        qLook_quartStep_other _ _ _ _ (h p (List.mem_cons_self _ _))]

theorem qLook_buildQuartMap (l : List (String × ℚ)) (k : String) (v : ℚ)
    (col t : String)
    (hnd : (l.map (fun p => rpartUnd p.1)).Nodup)
    (hmem : (k, v) ∈ l) (hq : isQuartKey k = true)
    (hr : rpartUnd k = (col, t)) :
    qLook (buildQuartMap l) col t = some v := by
  obtain ⟨pre, post, hsplit⟩ := List.append_of_mem hmem
  subst hsplit
  unfold buildQuartMap
  rw [List.foldl_append, List.foldl_cons]
  have hpost : ∀ p ∈ post, ¬(isQuartKey p.1 = true ∧ rpartUnd p.1 = (col, t)) := by
    intro p hp hand
    have heq : rpartUnd p.1 = rpartUnd k := hand.2.trans hr.symm
    rw [List.map_append, List.map_cons] at hnd
    have h1 : rpartUnd k ∉ post.map (fun p => rpartUnd p.1) :=
      (List.nodup_cons.mp (List.Nodup.of_append_right hnd)).1
    exact h1 (heq ▸ List.mem_map_of_mem _ hp)
  rw [qLook_foldl_preserve post col t hpost]
  exact qLook_quartStep_hit _ _ _ _ hq hr

theorem keysOf_updNested (m : List (String × List (String × ℚ)))
    (col t : String) (v : ℚ) :
    keysOf (updNested m col t v) =
      if col ∈ keysOf m then keysOf m else keysOf m ++ [col] := by
  induction m with
  | nil => simp [updNested, keysOf]
  | cons p rest ih =>
      obtain ⟨c, d⟩ := p
      by_cases hc : c = col
      · subst hc
        simp [updNested, keysOf]
      · have hc' : ¬(col = c) := fun he => hc he.symm
        unfold keysOf at ih ⊢
        simp only [updNested, if_neg hc, List.map_cons]
        rw [ih]
        by_cases hm : col ∈ List.map Prod.fst rest <;> simp [hm, hc']

theorem keysOf_quartStep_nodup (m : List (String × List (String × ℚ)))
    (kv : String × ℚ) (h : (keysOf m).Nodup) :
    (keysOf (quartStep m kv)).Nodup := by
  unfold quartStep
  split_ifs
  · rw [keysOf_updNested]
    split_ifs with hm
    · exact h
    · rw [List.nodup_append]
      exact ⟨h, by simp, fun a ha hae => hm ((List.mem_singleton.mp hae) ▸ ha)⟩
  · exact h

theorem keysOf_buildQuartMap_nodup (l : List (String × ℚ)) :
    (keysOf (buildQuartMap l)).Nodup := by
  unfold buildQuartMap
  have main : ∀ acc, (keysOf acc).Nodup → (keysOf (l.foldl quartStep acc)).Nodup := by
    induction l with
    | nil => intro acc h; exact h
    | cons p rest ih =>
        intro acc h
        rw [List.foldl_cons]
        exact ih _ (keysOf_quartStep_nodup _ _ h)
  exact main [] (by simp [keysOf])

theorem alook_some_split {α : Type} (m : List (String × α)) (k : String) (d : α)
    (hnd : (keysOf m).Nodup) (h : alook m k = some d) :
    ∃ q1 q2, m = q1 ++ (k, d) :: q2 ∧ k ∉ keysOf q2 := by
  induction m with
  | nil => simp [alook] at h
  | cons p rest ih =>
      obtain ⟨c, d0⟩ := p
      by_cases hc : k = c
      · subst hc
        simp [alook] at h
        subst h
        refine ⟨[], rest, rfl, ?_⟩
        exact (List.nodup_cons.mp (by simpa [keysOf] using hnd)).1
      · simp only [alook, if_neg hc] at h
        have hnd' : (keysOf rest).Nodup :=
          (List.nodup_cons.mp (by simpa [keysOf] using hnd)).2
        obtain ⟨q1, q2, heq, hq⟩ := ih hnd' h
        exact ⟨(c, d0) :: q1, q2, by rw [heq]; rfl, hq⟩

theorem iqrOf_of_lookups (c : String) (d : List (String × ℚ)) (v75 v25 : ℚ)
    (h75 : alook d "quartile75" = some v75)
    (h25 : alook d "quartile25" = some v25) :
    iqrOf (c, d) = some (c ++ "_IQR", v75 - v25) := by
  unfold iqrOf
  rw [show ((c, d) : String × List (String × ℚ)).2 = d from rfl, h75, h25]

theorem iqrOf_some_fst (p : String × List (String × ℚ)) (e : String × ℚ)
    (h : iqrOf p = some e) : e.1 = p.1 ++ "_IQR" := by
  unfold iqrOf at h
  rcases h75 : alook p.2 "quartile75" with _ | v75 <;> rw [h75] at h
  · simp at h
  rcases h25 : alook p.2 "quartile25" with _ | v25 <;> rw [h25] at h
  · simp at h
  · rw [Option.some.injEq] at h
    rw [← h]

theorem iqrEntries_keys (q : List (String × List (String × ℚ)))
    (o : List (String × ℚ)) (h : iqrEntries q = some o) :
    keysOf o = q.map (fun p => p.1 ++ "_IQR") := by
  induction q generalizing o with
  | nil =>
      rw [show iqrEntries [] = some [] from rfl, Option.some.injEq] at h
      subst h
      simp [keysOf]
  | cons p rest ih =>
      unfold iqrEntries at h
      rcases he : iqrOf p with _ | e <;> rw [he] at h
      · simp at h
      rcases hr : iqrEntries rest with _ | es <;> rw [hr] at h
      · simp at h
      · rw [Option.some.injEq] at h
        subst h
        simp only [keysOf, List.map_cons]
        rw [iqrOf_some_fst p e he]
        congr 1
        exact ih es hr

theorem iqrEntries_split (q1 : List (String × List (String × ℚ)))
    (x : String × List (String × ℚ)) (q2 : List (String × List (String × ℚ)))
    (out : List (String × ℚ)) (h : iqrEntries (q1 ++ x :: q2) = some out) :
    ∃ o1 e o2, iqrOf x = some e ∧ iqrEntries q2 = some o2 ∧
      out = o1 ++ e :: o2 := by
  induction q1 generalizing out with
  | nil =>
      rw [List.nil_append] at h
      unfold iqrEntries at h
      rcases he : iqrOf x with _ | e <;> rw [he] at h
      · simp at h
      rcases hr : iqrEntries q2 with _ | es <;> rw [hr] at h
      · simp at h
      · rw [Option.some.injEq] at h
        exact ⟨[], e, es, rfl, rfl, h.symm⟩
  | cons p rest ih =>
      rw [List.cons_append] at h
      unfold iqrEntries at h
      rcases he0 : iqrOf p with _ | e0 <;> rw [he0] at h
      · simp at h
      rcases hr0 : iqrEntries (rest ++ x :: q2) with _ | es0 <;> rw [hr0] at h
      · simp at h
      · rw [Option.some.injEq] at h
        obtain ⟨o1, e, o2, he, hr, ho⟩ := ih es0 hr0
        exact ⟨e0 :: o1, e, o2, he, hr, by rw [← h, ho]; rfl⟩

theorem fst_mem_keysOf {α : Type} {l : List (String × α)} {p : String × α}
    (h : p ∈ l) : p.1 ∈ keysOf l :=
  List.mem_map_of_mem _ h

theorem rndHalfEven_intCast (m : ℤ) : rndHalfEven (m : ℚ) = m := by
  unfold rndHalfEven
  simp only [Int.floor_intCast, sub_self]
  norm_num

theorem pyRound_two_of_centi (m : ℤ) :
    pyRound ((m : ℚ) / 100) 2 = (m : ℚ) / 100 := by
  unfold pyRound
  have h : (m : ℚ) / 100 * (10 : ℚ) ^ 2 = (m : ℚ) := by
    norm_num
  rw [h, rndHalfEven_intCast]
  norm_num

theorem pyRound_two_centi_form (y : ℚ) :
    ∃ m : ℤ, pyRound y 2 = (m : ℚ) / 100 :=
  ⟨rndHalfEven (y * (10 : ℚ) ^ 2), by unfold pyRound; norm_num⟩

theorem alook_roundAgg_centi (l : List (String × ℚ)) (k : String) (v : ℚ)
    (h : alook (roundAgg l) k = some v) : ∃ m : ℤ, v = (m : ℚ) / 100 := by
  have hm := alook_some_mem h
  unfold roundAgg at hm
  obtain ⟨p, hp, he⟩ := List.mem_map.mp hm
  have hv : v = pyRound p.2 2 := by
    have h2 := congrArg Prod.snd he
    simpa using h2.symm
  obtain ⟨m, hm2⟩ := pyRound_two_centi_form p.2
  exact ⟨m, by rw [hv, hm2]⟩

/-! ## C5: synthetic IQR entries -/

/-- C5: for every column whose `quartile25` and `quartile75` values are
both present in the flat aggregate result (the post-rounding `agg_result`
map), `get_table_metrics` inserts a synthetic `"{column}_IQR"` entry whose
value equals `round(quartile75 - quartile25, 2)`.  The code stores the bare
difference (`api.py` line 93); since both operands are 2-decimal roundings,
the difference is itself a fixed point of `round(·, 2)` and the two
descriptions agree.  The `Nodup` hypothesis says no two flat keys split to
the same `(column, kind)` pair at their last underscore — true of every
planner-generated key set, whose keys are `"{column}_{kind}"` with
underscore-free kinds. -/
theorem getTableMetrics_iqr (l : List (String × ℚ)) (rr : Option ℤ)
    (col : String) (v25 v75 : ℚ) (tm : TableMetrics)
    (hnd : (l.map (fun p => rpartUnd p.1)).Nodup)
    (h25 : alook (roundAgg l) (col ++ "_quartile25") = some v25)
    (h75 : alook (roundAgg l) (col ++ "_quartile75") = some v75)
    (htm : getTableMetrics (some l) rr = some tm) :
    alook tm.original (col ++ "_IQR") = some (pyRound (v75 - v25) 2) ∧
    pyRound (v75 - v25) 2 = v75 - v25 := by
  have hnd' : ((roundAgg l).map (fun p => rpartUnd p.1)).Nodup := by
    unfold roundAgg
    rw [List.map_map]
    exact hnd
  have hq25 : qLook (buildQuartMap (roundAgg l)) col "quartile25" = some v25 :=
    qLook_buildQuartMap _ _ _ _ _ hnd' (alook_some_mem h25)
      (isQuartKey_append_q25 col) (rpartUnd_append_q25 col)
  have hq75 : qLook (buildQuartMap (roundAgg l)) col "quartile75" = some v75 :=
    qLook_buildQuartMap _ _ _ _ _ hnd' (alook_some_mem h75)
      (isQuartKey_append_q75 col) (rpartUnd_append_q75 col)
  unfold qLook at hq25 hq75
  rcases halk : alook (buildQuartMap (roundAgg l)) col with _ | d <;>
    rw [halk] at hq25 hq75
  · simp at hq25
  simp only [Option.some_bind] at hq25 hq75
  obtain ⟨q1, q2, hsplit, hnotin⟩ :=
    alook_some_split _ _ _ (keysOf_buildQuartMap_nodup (roundAgg l)) halk
  simp only [getTableMetrics, Option.getD_some] at htm
  rcases hiq : iqrEntries (buildQuartMap (roundAgg l)) with _ | iqrs <;>
    rw [hiq] at htm
  · exact absurd htm (by simp)
  dsimp only at htm
  rw [Option.some.injEq] at htm
  rw [hsplit] at hiq
  obtain ⟨o1, e, o2, he, ho2, hout⟩ := iqrEntries_split _ _ _ _ hiq
  have he2 : e = (col ++ "_IQR", v75 - v25) := by
    have h2 := iqrOf_of_lookups col d v75 v25 hq75 hq25
    rw [he] at h2
    exact Option.some.inj h2
  subst he2
  subst hout
  have horig : tm.original =
      List.foldl (fun a kv => updA a kv.1 kv.2) (roundAgg l)
        (o1 ++ (col ++ "_IQR", v75 - v25) :: o2) := by
    rw [← htm]
  have hfree : ∀ p ∈ o2, p.1 ≠ col ++ "_IQR" := by
    intro p hp hpe
    have hkeys := iqrEntries_keys q2 o2 ho2
    have hpk : p.1 ∈ keysOf o2 := fst_mem_keysOf hp
    rw [hkeys] at hpk
    obtain ⟨pq, hpq, hpqe⟩ := List.mem_map.mp hpk
    have hcancel : pq.1 = col := by
      have h3 : pq.1 ++ "_IQR" = col ++ "_IQR" := by rw [hpqe, hpe]
      have h4 := congrArg String.data h3
      rw [String.data_append, String.data_append] at h4
      exact String.ext (List.append_cancel_right h4)
    exact hnotin (by rw [← hcancel]; exact fst_mem_keysOf hpq)
  have hfin := foldl_updA_alook_hit (roundAgg l) o1 o2 (col ++ "_IQR")
    (v75 - v25) hfree
  obtain ⟨m25, hm25⟩ := alook_roundAgg_centi l _ _ h25
  obtain ⟨m75, hm75⟩ := alook_roundAgg_centi l _ _ h75
  have hdiff : v75 - v25 = ((m75 - m25 : ℤ) : ℚ) / 100 := by
    rw [hm25, hm75]
    push_cast
    ring
  have hfix : pyRound (v75 - v25) 2 = v75 - v25 := by
    rw [hdiff, pyRound_two_of_centi]
  exact ⟨by rw [horig, hfin, hfix], hfix⟩

/-- Concrete instance of `getTableMetrics_iqr`: a flat result carrying
`a_quartile25 = 1` and `a_quartile75 = 3` yields an `a_IQR` entry equal to
`round(3 - 1, 2)`. -/
theorem getTableMetrics_iqr_witness :
    alook ((getTableMetrics (some [("a_quartile25", 1), ("a_quartile75", 3)])
        (some 2)).getD ⟨0, [], []⟩).original ("a" ++ "_IQR")
      = some (pyRound (pyRound 3 2 - pyRound 1 2) 2) ∧
    pyRound (pyRound 3 2 - pyRound 1 2) 2 = pyRound 3 2 - pyRound 1 2 :=
  getTableMetrics_iqr [("a_quartile25", 1), ("a_quartile75", 3)] (some 2)
    "a" (pyRound 1 2) (pyRound 3 2) _ (by decide) rfl rfl rfl

/-- Concrete instance of `getColumnsData_partition` on overlapping
two-column schemas. -/
theorem getColumnsData_partition_witness :
    ((("b" ∈ (getColumnsData [("a", "int"), ("b", "int")] [("b", "text"), ("c", "text")]).common ∨
       "b" ∈ (getColumnsData [("a", "int"), ("b", "int")] [("b", "text"), ("c", "text")]).table1Uncommon)
        ↔ "b" ∈ keysOf [("a", "int"), ("b", "int")]) ∧
     ¬("b" ∈ (getColumnsData [("a", "int"), ("b", "int")] [("b", "text"), ("c", "text")]).common ∧
       "b" ∈ (getColumnsData [("a", "int"), ("b", "int")] [("b", "text"), ("c", "text")]).table1Uncommon) ∧
     (("b" ∈ (getColumnsData [("a", "int"), ("b", "int")] [("b", "text"), ("c", "text")]).common ∨
       "b" ∈ (getColumnsData [("a", "int"), ("b", "int")] [("b", "text"), ("c", "text")]).table2Uncommon)
        ↔ "b" ∈ keysOf [("b", "text"), ("c", "text")]) ∧
     ¬("b" ∈ (getColumnsData [("a", "int"), ("b", "int")] [("b", "text"), ("c", "text")]).common ∧
       "b" ∈ (getColumnsData [("a", "int"), ("b", "int")] [("b", "text"), ("c", "text")]).table2Uncommon)) :=
  getColumnsData_partition [("a", "int"), ("b", "int")] [("b", "text"), ("c", "text")] "b"

/-- Concrete instances of `classifyDiffMode_cases`: `"double precision"`
is numeric, `"VARCHAR"` is text. -/
theorem classifyDiffMode_cases_witness :
    classifyDiffMode "double precision" = ColClass.numeric ∧
    classifyDiffMode "VARCHAR" = ColClass.text :=
  ⟨(classifyDiffMode_cases "double precision").1.mpr
      (Or.inr (Or.inr ⟨by decide, by decide⟩)),
   (classifyDiffMode_cases "VARCHAR").2.1.mpr ⟨by decide, Or.inl (by decide)⟩⟩

/-- Concrete instance of `getAllColumnsInfo_numeric_iff`: a `float8` column
lands in `numeric_columns` and in the type map under its folded base. -/
theorem getAllColumnsInfo_numeric_iff_witness :
    "a" ∈ (getAllColumnsInfo [("a", "float8"), ("b", "varchar(10)")]).2 ∧
    ("a", foldStr (baseOf "float8")) ∈
      (getAllColumnsInfo [("a", "float8"), ("b", "varchar(10)")]).1 :=
  ⟨(getAllColumnsInfo_numeric_iff [("a", "float8"), ("b", "varchar(10)")] "a").1.mpr
      ⟨"float8", by decide, Or.inl (by decide)⟩,
   (getAllColumnsInfo_numeric_iff [("a", "float8"), ("b", "varchar(10)")] "a").2
      "float8" (by decide)⟩

/-- Concrete instance of `getEnginesConnsTables_single_iff`: with `conn_2`
and `table_2` both empty, only one table is processed and the response is
keyed `"table"`. -/
theorem getEnginesConnsTables_single_iff_witness :
    (getEnginesConnsTables "pg1" "" "t" "").1 = false ∧
    availableColumnsKeys (getEnginesConnsTables "pg1" "" "t" "").1 = ["table"] :=
  ⟨(getEnginesConnsTables_single_iff "pg1" "" "t" "").1.mpr (Or.inl ⟨rfl, rfl⟩),
   (getEnginesConnsTables_single_iff "pg1" "" "t" "").2.mpr
     ((getEnginesConnsTables_single_iff "pg1" "" "t" "").1.mpr (Or.inl ⟨rfl, rfl⟩))⟩

end DataCompare
